import Mathlib

/-
Verification of the CPU lerp kernel (aten/src/ATen/native/cpu/LerpKernel.cpp).

The kernel is embedded shallowly:
* a `Vectorized` register batch becomes a lane function `Fin n → α`;
* the per-lane element types float/double are modelled with exact rationals ℚ,
  complex float/double with the Gaussian-rational structure `CQ`;
* IEEE special-value behaviour (NaN, infinities) is modelled by the extended
  type `FVal`, whose arithmetic follows the IEEE-754 value-level rules
  (propagation of NaN, 0 * inf = NaN, inf - inf = NaN, NaN comparing false);
* the C++ template `lerp_vec`, which is instantiated per scalar type and picks
  up the overloaded `is_lerp_weight_small` and `vec::fmadd`, becomes a single
  definition over the capability class `LaneOps`.
-/

set_option maxHeartbeats 1000000

namespace LerpKernel

/-- Gaussian-rational model of one complex lane (c10::complex with exact
real components). -/
structure CQ where
  re : ℚ
  im : ℚ
deriving DecidableEq, Repr

instance : Add CQ := ⟨fun a b => ⟨a.re + b.re, a.im + b.im⟩⟩
instance : Sub CQ := ⟨fun a b => ⟨a.re - b.re, a.im - b.im⟩⟩
instance : Neg CQ := ⟨fun a => ⟨-a.re, -a.im⟩⟩
instance : Mul CQ := ⟨fun a b => ⟨a.re * b.re - a.im * b.im, a.re * b.im + a.im * b.re⟩⟩
instance : One CQ := ⟨⟨1, 0⟩⟩
instance : Zero CQ := ⟨⟨0, 0⟩⟩

theorem CQ.ext {a b : CQ} (hre : a.re = b.re) (him : a.im = b.im) : a = b := by
  cases a; cases b; cases hre; cases him; rfl

@[simp] theorem CQ.add_re (a b : CQ) : (a + b).re = a.re + b.re := rfl
@[simp] theorem CQ.add_im (a b : CQ) : (a + b).im = a.im + b.im := rfl
@[simp] theorem CQ.sub_re (a b : CQ) : (a - b).re = a.re - b.re := rfl
@[simp] theorem CQ.sub_im (a b : CQ) : (a - b).im = a.im - b.im := rfl
@[simp] theorem CQ.mul_re (a b : CQ) : (a * b).re = a.re * b.re - a.im * b.im := rfl
@[simp] theorem CQ.mul_im (a b : CQ) : (a * b).im = a.re * b.im + a.im * b.re := rfl
@[simp] theorem CQ.one_re : (1 : CQ).re = 1 := rfl
@[simp] theorem CQ.one_im : (1 : CQ).im = 0 := rfl
@[simp] theorem CQ.zero_re : (0 : CQ).re = 0 := rfl
@[simp] theorem CQ.zero_im : (0 : CQ).im = 0 := rfl

/-- Per-lane capability set used by the templated lerp_vec: subtraction,
the constant 1, a fused multiply-add, and the overloaded weight-magnitude
classifier is_lerp_weight_small.  This mirrors the C++ template, which is
instantiated once per scalar type and resolves those operations per type. -/
class LaneOps (α : Type) extends Sub α, One α where
  fma : α → α → α → α
  weightSmall : α → Bool

/-- Embedding of is_lerp_weight_small for real scalar types:
weight.abs() < Vectorized(0.5), lane-wise. -/
def is_lerp_weight_small (w : ℚ) : Bool := decide (|w| < 1/2)

/-- Embedding of Vectorized complex abs_2_ at one lane: the squared
magnitude, computed in the real-component domain. -/
def CQ.abs_2_ (z : CQ) : ℚ := z.re * z.re + z.im * z.im

/-- Embedding of the complex overload of is_lerp_weight_small:
Vectorized(weight.abs_2_()) < Vectorized(0.25), lane-wise. -/
def CQ.is_lerp_weight_small (z : CQ) : Bool := decide (CQ.abs_2_ z < 1/4)

instance : LaneOps ℚ where
  fma := fun a b c => a * b + c
  weightSmall := is_lerp_weight_small

instance : LaneOps CQ where
  fma := fun a b c => a * b + c
  weightSmall := CQ.is_lerp_weight_small

/-- A Vectorized register batch: one value per lane. -/
def Vec (α : Type) (n : Nat) : Type := Fin n → α

/-- Vectorized construction from a scalar: broadcast into every lane. -/
def vbroadcast {α : Type} {n : Nat} (x : α) : Vec α n := fun _ => x

/-- Lane-wise vector subtraction. -/
def vsub {α : Type} [Sub α] {n : Nat} (a b : Vec α n) : Vec α n := fun i => a i - b i

/-- Vectorized::blendv(a, b, mask): b at lanes where the mask is set,
a elsewhere. -/
def blendv {α : Type} {n : Nat} (a b : Vec α n) (mask : Fin n → Bool) : Vec α n :=
  fun i => if mask i then b i else a i

/-- vec::fmadd(a, b, c): the fused multiply-add applied lane-wise. -/
def vfmadd {α : Type} [LaneOps α] {n : Nat} (a b c : Vec α n) : Vec α n :=
  fun i => LaneOps.fma (a i) (b i) (c i)

/-- Embedding of the templated lerp_vec:
  mask  = is_lerp_weight_small(weight)
  coeff = blendv(weight - 1, weight, mask)
  base  = blendv(end, start, mask)
  return fmadd(coeff, end - start, base). -/
def lerp_vec {α : Type} [LaneOps α] {n : Nat} (start endv weight : Vec α n) : Vec α n :=
  let mask : Fin n → Bool := fun i => LaneOps.weightSmall (weight i)
  let coeff := blendv (vsub weight (vbroadcast 1)) weight mask
  let base := blendv endv start mask
  vfmadd coeff (vsub endv start) base

/-- Modelled from the spec: the scalar lerp primitive is declared in
ATen/native/Lerp.h, which is not among the sources here; the spec defines
it as result = start + weight * (end - start). -/
def lerp {α : Type} [Add α] [Mul α] [Sub α] (start endv weight : α) : α :=
  start + weight * (endv - start)

/-- Embedding of lerp_vec_map, the complex fallback on the
no-direct-capability path: store each operand batch to a lane buffer,
apply the scalar lerp to every lane, reload the result buffer as a batch. -/
def lerp_vec_map {α : Type} [Add α] [Mul α] [Sub α] {n : Nat}
    (start endv weight : Vec α n) : Vec α n :=
  let start_arr := List.ofFn start
  let end_arr := List.ofFn endv
  let weight_arr := List.ofFn weight
  let result_arr := List.ofFn (fun i : Fin n =>
    lerp (start_arr.get (Fin.cast (List.length_ofFn start).symm i))
         (end_arr.get (Fin.cast (List.length_ofFn endv).symm i))
         (weight_arr.get (Fin.cast (List.length_ofFn weight).symm i)))
  fun i => result_arr.get (Fin.cast (List.length_ofFn _).symm i)

/-- IEEE value-level model of one real floating lane: an exact finite
value, a signed infinity (true = positive), or NaN.  Rounding is not
modelled; special-value propagation is. -/
inductive FVal where
  | fin : ℚ → FVal
  | inf : Bool → FVal
  | nan : FVal
deriving DecidableEq, Repr

namespace FVal

/-- IEEE negation. -/
def neg : FVal → FVal
  | fin q => fin (-q)
  | inf b => inf (!b)
  | nan => nan

/-- IEEE addition at the value level: NaN propagates, opposite
infinities give NaN. -/
def add : FVal → FVal → FVal
  | nan, _ => nan
  | _, nan => nan
  | fin q, fin r => fin (q + r)
  | fin _, inf b => inf b
  | inf b, fin _ => inf b
  | inf b, inf c => if b = c then inf b else nan

/-- IEEE subtraction. -/
def sub (a b : FVal) : FVal := a.add b.neg

/-- IEEE multiplication at the value level: NaN propagates,
0 * inf = NaN. -/
def mul : FVal → FVal → FVal
  | nan, _ => nan
  | _, nan => nan
  | fin q, fin r => fin (q * r)
  | fin q, inf b => if q = 0 then nan else inf (b == decide (0 < q))
  | inf b, fin q => if q = 0 then nan else inf (b == decide (0 < q))
  | inf b, inf c => inf (b == c)

/-- IEEE absolute value. -/
def abs : FVal → FVal
  | fin q => fin |q|
  | inf _ => inf true
  | nan => nan

/-- IEEE ordered less-than: any comparison with NaN is false. -/
def lt : FVal → FVal → Bool
  | nan, _ => false
  | _, nan => false
  | fin q, fin r => decide (q < r)
  | fin _, inf b => b
  | inf b, fin _ => !b
  | inf b, inf c => !b && c

/-- Fused multiply-add at the value level: with exact finite values the
single-rounding contraction is invisible, and the special-value rules of
fma coincide with multiply-then-add. -/
def fma (a b c : FVal) : FVal := (a.mul b).add c

/-- True exactly on finite (non-inf, non-NaN) values. -/
def isFinite : FVal → Bool
  | fin _ => true
  | _ => false

@[simp] theorem nan_mul (x : FVal) : mul nan x = nan := by cases x <;> rfl
@[simp] theorem nan_add (x : FVal) : add nan x = nan := by cases x <;> rfl
@[simp] theorem nan_sub (x : FVal) : sub nan x = nan := by cases x <;> rfl

end FVal

instance : Sub FVal := ⟨FVal.sub⟩
instance : One FVal := ⟨FVal.fin 1⟩

@[simp] theorem FVal.sub_def (a b : FVal) : a - b = FVal.sub a b := rfl
@[simp] theorem FVal.one_def : (1 : FVal) = FVal.fin 1 := rfl

/-- The real-type is_lerp_weight_small over the IEEE value model:
weight.abs() < 0.5 under IEEE comparison semantics. -/
instance : LaneOps FVal where
  fma := FVal.fma
  weightSmall := fun w => FVal.lt w.abs (FVal.fin (1/2))

/-- A helper: zip three lists with a ternary function, stopping at the
shortest (the iteration engine only covers positions present in all
operands). -/
def zipWith3 {α β γ δ : Type} (f : α → β → γ → δ) : List α → List β → List γ → List δ
  | a :: as, b :: bs, c :: cs => f a b c :: zipWith3 f as bs cs
  | _, _, _ => []

/-- Embedding of the per-element path of lerp_scalar_kernel: the weight is
one hoisted value, and every element pair is mapped by the scalar lerp. -/
def lerp_scalar_kernel {α : Type} [Add α] [Mul α] [Sub α]
    (weight_val : α) (self endv : List α) : List α :=
  List.zipWith (fun self_val end_val => lerp self_val end_val weight_val) self endv

/-- Embedding of the per-batch path of lerp_scalar_kernel: the hoisted
weight is broadcast into a constant batch and lerp_vec is applied. -/
def lerp_scalar_kernel_vec {α : Type} [LaneOps α] {n : Nat}
    (weight_val : α) (self endv : Vec α n) : Vec α n :=
  lerp_vec self endv (vbroadcast weight_val)

/-- Embedding of the per-element path of lerp_tensor_kernel: the weight
varies per element. -/
def lerp_tensor_kernel {α : Type} [Add α] [Mul α] [Sub α]
    (self endv weight : List α) : List α :=
  zipWith3 (fun self_val end_val weight_val => lerp self_val end_val weight_val) self endv weight

/-- Embedding of the per-batch path of lerp_tensor_kernel. -/
def lerp_tensor_kernel_vec {α : Type} [LaneOps α] {n : Nat}
    (self endv weight : Vec α n) : Vec α n :=
  lerp_vec self endv weight

/-- The runtime element types a caller may declare. -/
inductive ScalarType where
  | Byte | Char | Short | Int | Long | Bool | Half | BFloat16
  | Float | Double | ComplexHalf | ComplexFloat | ComplexDouble
deriving DecidableEq, Repr

/-- The types accepted by AT_DISPATCH_FLOATING_AND_COMPLEX_TYPES:
float, double and their complex counterparts. -/
def isFloatingOrComplexType : ScalarType → Bool
  | .Float => true
  | .Double => true
  | .ComplexFloat => true
  | .ComplexDouble => true
  | _ => false

/-- Modelled from the spec: the type-dispatch facility
(AT_DISPATCH_FLOATING_AND_COMPLEX_TYPES from ATen/Dispatch.h, not among
the sources here) runs the kernel body only for floating and
complex-floating common dtypes and otherwise fails with an
unsupported-type error before any computation. -/
def dispatchFloatingAndComplex {β : Type} (dtype : ScalarType) (kernelName : String)
    (body : Unit → β) : Except String β :=
  if isFloatingOrComplexType dtype then Except.ok (body ())
  else Except.error kernelName

/-- The scalar-weight entry point: dispatch over the common dtype, then
run the per-element kernel (the written output is the returned list;
on the error path no output is produced). -/
def lerp_scalar_kernel_entry (dtype : ScalarType) (weight_val : ℚ)
    (self endv : List ℚ) : Except String (List ℚ) :=
  dispatchFloatingAndComplex dtype "lerp_kernel_scalar"
    (fun _ => lerp_scalar_kernel weight_val self endv)

/-- The tensor-weight entry point. -/
def lerp_tensor_kernel_entry (dtype : ScalarType)
    (self endv weight : List ℚ) : Except String (List ℚ) :=
  dispatchFloatingAndComplex dtype "lerp_kernel_tensor"
    (fun _ => lerp_tensor_kernel self endv weight)

@[simp] theorem fmaQ (a b c : ℚ) : LaneOps.fma a b c = a * b + c := rfl
@[simp] theorem fmaCQ (a b c : CQ) : LaneOps.fma a b c = a * b + c := rfl
@[simp] theorem fmaF (a b c : FVal) : LaneOps.fma a b c = FVal.fma a b c := rfl
@[simp] theorem weightSmallQ (w : ℚ) : LaneOps.weightSmall w = is_lerp_weight_small w := rfl
@[simp] theorem weightSmallCQ (w : CQ) : LaneOps.weightSmall w = CQ.is_lerp_weight_small w := rfl
@[simp] theorem weightSmallF (w : FVal) :
    LaneOps.weightSmall w = FVal.lt w.abs (FVal.fin (1/2)) := rfl

/-- Shared lane-level unfolding of lerp_vec: the blends pick the
coefficient and the anchor per lane, and the lane value is one fused
multiply-add. -/
theorem lerp_vec_lane {α : Type} [LaneOps α] {n : Nat} (s e w : Vec α n) (i : Fin n) :
    lerp_vec s e w i =
      LaneOps.fma (if LaneOps.weightSmall (w i) then w i else w i - 1)
        (e i - s i)
        (if LaneOps.weightSmall (w i) then s i else e i) := by
  simp only [lerp_vec, vfmadd, blendv, vsub, vbroadcast]

/-- C1: for real and complex element types, at every lane position, the
vectorized lerp_vec produces exactly the value of the per-element scalar
lerp formula registered alongside it; for complex lanes the equality
holds in each component. -/
theorem lerp_vec_refines_scalar_lerp :
    (∀ (n : Nat) (s e w : Vec ℚ n) (i : Fin n),
      lerp_vec s e w i = lerp (s i) (e i) (w i)) ∧
    (∀ (n : Nat) (s e w : Vec CQ n) (i : Fin n),
      (lerp_vec s e w i).re = (lerp (s i) (e i) (w i)).re ∧
      (lerp_vec s e w i).im = (lerp (s i) (e i) (w i)).im) := by
  constructor
  · intro n s e w i
    rw [lerp_vec_lane]
    simp only [fmaQ, lerp]
    split <;> ring
  · intro n s e w i
    rw [lerp_vec_lane]
    simp only [fmaCQ, lerp]
    constructor <;> (split <;> (simp only [CQ.add_re, CQ.add_im, CQ.sub_re, CQ.sub_im,
      CQ.mul_re, CQ.mul_im, CQ.one_re, CQ.one_im]; ring))

/-- C2: at every lane, lerp_vec computes coeff = weight when the magnitude
mask holds and weight - 1 otherwise, base = start when the mask holds and
end otherwise, and returns the single fused multiply-add
fma(coeff, end - start, base). -/
theorem lerp_vec_mask_fma_form {α : Type} [LaneOps α] {n : Nat}
    (s e w : Vec α n) (i : Fin n) :
    lerp_vec s e w i =
      LaneOps.fma (if LaneOps.weightSmall (w i) then w i else w i - 1)
        (e i - s i)
        (if LaneOps.weightSmall (w i) then s i else e i) :=
  lerp_vec_lane s e w i

/-- C3: the weight-magnitude classifier is true exactly when the absolute
weight is below one half for real lanes; for complex lanes on the direct
path it is true exactly when the squared magnitude is below one quarter,
which is equivalent to the complex modulus being below one half. -/
theorem weight_classifier_spec :
    (∀ w : ℚ, is_lerp_weight_small w = true ↔ |w| < 1/2) ∧
    (∀ z : CQ, CQ.is_lerp_weight_small z = true ↔ CQ.abs_2_ z < 1/4) ∧
    (∀ z : CQ, CQ.is_lerp_weight_small z = true ↔
      Real.sqrt ((z.re : ℝ)^2 + (z.im : ℝ)^2) < 1/2) := by
  refine ⟨fun w => by simp [is_lerp_weight_small],
          fun z => by simp [CQ.is_lerp_weight_small], fun z => ?_⟩
  rw [Real.sqrt_lt' (by norm_num : (0:ℝ) < 1/2)]
  have hcast : ((z.re : ℝ)^2 + (z.im : ℝ)^2) = ((CQ.abs_2_ z : ℚ) : ℝ) := by
    rw [CQ.abs_2_]; push_cast; ring
  rw [hcast, show ((1:ℝ)/2)^2 = (((1:ℚ)/4 : ℚ) : ℝ) by norm_num, Rat.cast_lt]
  simp [CQ.is_lerp_weight_small]

/-- C4: in exact arithmetic the end-anchored branch
fma(weight - 1, end - start, end) and the start-anchored branch
fma(weight, end - start, start) of the vectorized formula compute
identical values, for real and complex lanes. -/
theorem anchor_branches_agree :
    (∀ s e w : ℚ, LaneOps.fma (w - 1) (e - s) e = LaneOps.fma w (e - s) s) ∧
    (∀ s e w : CQ, LaneOps.fma (w - 1) (e - s) e = LaneOps.fma w (e - s) s) := by
  constructor
  · intro s e w; simp only [fmaQ]; ring
  · intro s e w
    simp only [fmaCQ]
    apply CQ.ext <;> simp <;> ring

/-- C5: lerp(start, end, 0) = start and lerp(start, end, 1) = end exactly,
in the scalar path and at every lane of the vectorized path, for real and
complex element types. -/
theorem lerp_endpoint_exactness :
    (∀ s e : ℚ, lerp s e 0 = s ∧ lerp s e 1 = e) ∧
    (∀ (n : Nat) (s e : Vec ℚ n) (i : Fin n),
      lerp_vec s e (vbroadcast 0) i = s i ∧ lerp_vec s e (vbroadcast 1) i = e i) ∧
    (∀ s e : CQ, lerp s e 0 = s ∧ lerp s e 1 = e) ∧
    (∀ (n : Nat) (s e : Vec CQ n) (i : Fin n),
      lerp_vec s e (vbroadcast 0) i = s i ∧ lerp_vec s e (vbroadcast 1) i = e i) := by
  have h0q : is_lerp_weight_small (0:ℚ) = true := by norm_num [is_lerp_weight_small]
  have h1q : is_lerp_weight_small (1:ℚ) = false := by norm_num [is_lerp_weight_small]
  have h0c : CQ.is_lerp_weight_small (0:CQ) = true := by
    norm_num [CQ.is_lerp_weight_small, CQ.abs_2_]
  have h1c : CQ.is_lerp_weight_small (1:CQ) = false := by
    norm_num [CQ.is_lerp_weight_small, CQ.abs_2_]
  refine ⟨fun s e => ⟨by rw [lerp]; ring, by rw [lerp]; ring⟩, ?_, ?_, ?_⟩
  · intro n s e i
    constructor
    · rw [lerp_vec_lane]
      simp only [vbroadcast, weightSmallQ, h0q, if_true, fmaQ]
      ring
    · rw [lerp_vec_lane]
      simp only [vbroadcast, weightSmallQ, h1q, Bool.false_eq_true, if_false, fmaQ]
      ring
  · intro s e
    constructor
    · apply CQ.ext <;> simp [lerp]
    · apply CQ.ext <;> simp [lerp]
  · intro n s e i
    constructor
    · rw [lerp_vec_lane]
      simp only [vbroadcast, weightSmallCQ, h0c, if_true, fmaCQ]
      apply CQ.ext <;> simp
    · rw [lerp_vec_lane]
      simp only [vbroadcast, weightSmallCQ, h1c, Bool.false_eq_true, if_false, fmaCQ]
      apply CQ.ext <;> simp

@[simp] theorem zipWith3_cons {α β γ δ : Type} (f : α → β → γ → δ)
    (a : α) (as : List α) (b : β) (bs : List β) (c : γ) (cs : List γ) :
    zipWith3 f (a :: as) (b :: bs) (c :: cs) = f a b c :: zipWith3 f as bs cs := rfl

/-- Shared helper: zipping with a replicated third operand of sufficient
length is zipping the first two with the constant baked in. -/
theorem zipWith3_replicate {α δ : Type} (g : α → α → α → δ) (w : α) :
    ∀ (s e : List α),
      zipWith3 g s e (List.replicate s.length w) = List.zipWith (fun a b => g a b w) s e := by
  intro s
  induction s with
  | nil => intro e; rfl
  | cons a as ih =>
    intro e
    cases e with
    | nil => simp [zipWith3, List.replicate_succ]
    | cons b bs =>
      simp only [List.length_cons, List.replicate_succ, zipWith3_cons, List.zipWith_cons_cons]
      rw [ih bs]

/-- C6: the scalar-weight kernel with weight w agrees, position by
position, with the tensor-weight kernel fed a weight array every element
of which is w, on both the per-element and the per-batch paths, for real
and complex element types. -/
theorem scalar_weight_matches_tensor_weight :
    (∀ (w : ℚ) (s e : List ℚ),
      lerp_scalar_kernel w s e = lerp_tensor_kernel s e (List.replicate s.length w)) ∧
    (∀ (n : Nat) (w : ℚ) (s e : Vec ℚ n),
      lerp_scalar_kernel_vec w s e = lerp_tensor_kernel_vec s e (vbroadcast w)) ∧
    (∀ (w : CQ) (s e : List CQ),
      lerp_scalar_kernel w s e = lerp_tensor_kernel s e (List.replicate s.length w)) ∧
    (∀ (n : Nat) (w : CQ) (s e : Vec CQ n),
      lerp_scalar_kernel_vec w s e = lerp_tensor_kernel_vec s e (vbroadcast w)) := by
  refine ⟨fun w s e => ?_, fun n w s e => rfl, fun w s e => ?_, fun n w s e => rfl⟩
  · rw [lerp_tensor_kernel, zipWith3_replicate]; rfl
  · rw [lerp_tensor_kernel, zipWith3_replicate]; rfl

/-- C7: on the complex no-direct-capability path, the unpack/scalar/repack
fallback lerp_vec_map produces at every lane exactly the value of the
scalar lerp applied directly to that lane of the same data. -/
theorem lerp_vec_map_eq_scalar_loop :
    ∀ (n : Nat) (s e w : Vec CQ n) (i : Fin n),
      lerp_vec_map s e w i = lerp (s i) (e i) (w i) := by
  intro n s e w i
  simp [lerp_vec_map, List.get_ofFn]

/-- C8: for a common dtype outside the floating and complex-floating
types, both kernel entry points fail at dispatch with the
unsupported-type error and produce no output list. -/
theorem unsupported_dtype_dispatch_error (dtype : ScalarType)
    (h : isFloatingOrComplexType dtype = false) :
    (∀ (w : ℚ) (s e : List ℚ),
      lerp_scalar_kernel_entry dtype w s e = Except.error "lerp_kernel_scalar") ∧
    (∀ (s e wl : List ℚ),
      lerp_tensor_kernel_entry dtype s e wl = Except.error "lerp_kernel_tensor") := by
  constructor
  · intro w s e
    simp [lerp_scalar_kernel_entry, dispatchFloatingAndComplex, h]
  · intro s e wl
    simp [lerp_tensor_kernel_entry, dispatchFloatingAndComplex, h]

/-- Witness for C8 at the integer dtype with concrete operands. -/
theorem unsupported_dtype_dispatch_error_witness :
    isFloatingOrComplexType ScalarType.Int = false ∧
    lerp_scalar_kernel_entry ScalarType.Int (1/2) [1, 2] [3, 4] =
      Except.error "lerp_kernel_scalar" ∧
    lerp_tensor_kernel_entry ScalarType.Int [1, 2] [3, 4] [1/2, 1/2] =
      Except.error "lerp_kernel_tensor" :=
  ⟨rfl, (unsupported_dtype_dispatch_error ScalarType.Int rfl).1 (1/2) [1, 2] [3, 4],
    (unsupported_dtype_dispatch_error ScalarType.Int rfl).2 [1, 2] [3, 4] [1/2, 1/2]⟩

/-- C9: at a lane whose weight is NaN, the magnitude mask is false (NaN
compares false against the threshold), the lane takes the end-anchored
branch with coefficient NaN - 1 and base end, and the lane result is NaN. -/
theorem nan_weight_lane (n : Nat) (s e w : Vec FVal n) (i : Fin n)
    (h : w i = FVal.nan) :
    LaneOps.weightSmall (w i) = false ∧
    lerp_vec s e w i = LaneOps.fma (w i - 1) (e i - s i) (e i) ∧
    lerp_vec s e w i = FVal.nan := by
  have hmask : LaneOps.weightSmall (w i) = false := by
    rw [h]; rfl
  refine ⟨hmask, ?_, ?_⟩
  · rw [lerp_vec_lane, hmask]
    simp
  · rw [lerp_vec_lane, hmask, h]
    simp [FVal.fma]

/-- Witness for C9: one lane, start = end = 0, weight = NaN; the lane
result is NaN. -/
theorem nan_weight_lane_witness :
    ((fun _ => FVal.nan : Vec FVal 1) ⟨0, Nat.one_pos⟩ = FVal.nan) ∧
    lerp_vec (fun _ => FVal.fin 0) (fun _ => FVal.fin 0) (fun _ => FVal.nan)
      (⟨0, Nat.one_pos⟩ : Fin 1) = FVal.nan :=
  ⟨rfl, (nan_weight_lane 1 (fun _ => FVal.fin 0) (fun _ => FVal.fin 0)
    (fun _ => FVal.nan) ⟨0, Nat.one_pos⟩ rfl).2.2⟩

/-- C10: at a lane with weight 0, if end - start is non-finite the fused
multiply-add evaluates 0 times a non-finite quantity and the lane result
is NaN, not start; when end - start is finite the lane result is exactly
start. -/
theorem zero_weight_nonfinite_lane (n : Nat) (s e w : Vec FVal n) (i : Fin n)
    (h : w i = FVal.fin 0) :
    ((e i - s i).isFinite = false → lerp_vec s e w i = FVal.nan) ∧
    ((e i - s i).isFinite = true → lerp_vec s e w i = s i) := by
  have hmask : LaneOps.weightSmall (w i) = true := by
    rw [h]
    norm_num [weightSmallF, FVal.abs, FVal.lt]
  constructor
  · intro hd
    rw [lerp_vec_lane, hmask, h]
    simp only [if_true, fmaF]
    cases hdd : e i - s i with
    | fin q => rw [hdd] at hd; simp [FVal.isFinite] at hd
    | inf b => simp [FVal.fma, FVal.mul]
    | nan => simp [FVal.fma, FVal.mul]
  · intro hd
    rw [lerp_vec_lane, hmask, h]
    simp only [if_true, fmaF]
    cases hdd : e i - s i with
    | fin q => cases hs : s i <;> simp [FVal.fma, FVal.mul, FVal.add]
    | inf b => rw [hdd] at hd; simp [FVal.isFinite] at hd
    | nan => rw [hdd] at hd; simp [FVal.isFinite] at hd

/-- Witness for C10: one lane, start = 0, end = +inf, weight = 0; the
difference is non-finite and the lane result is NaN. -/
theorem zero_weight_nonfinite_lane_witness :
    ((fun _ => FVal.fin 0 : Vec FVal 1) ⟨0, Nat.one_pos⟩ = FVal.fin 0) ∧
    ((FVal.inf true - FVal.fin 0).isFinite = false) ∧
    lerp_vec (fun _ => FVal.fin 0) (fun _ => FVal.inf true) (fun _ => FVal.fin 0)
      (⟨0, Nat.one_pos⟩ : Fin 1) = FVal.nan :=
  ⟨rfl, rfl, (zero_weight_nonfinite_lane 1 (fun _ => FVal.fin 0)
    (fun _ => FVal.inf true) (fun _ => FVal.fin 0) ⟨0, Nat.one_pos⟩ rfl).1 rfl⟩

end LerpKernel
